import Mathlib

/-!
Shallow embedding of `scripts/analyze_kernel_trace.py`.

Modelling conventions:
* Python `float` values are modelled as exact rationals (`ℚ`).  Every
  arithmetic operation the script performs on the parsed values
  (subtraction, division by `1000`, division by workgroup sizes that are at
  least `1`, `min` with `1.0`, multiplication by `100`) is exact on the
  inputs the claims are about, so the rational model agrees with IEEE
  evaluation on sign and ordering facts used below.
* A CSV row as produced by `csv.DictReader` is an association list from
  header names to cell values; `dict.get` with a default becomes
  `List.lookup` with `getD`.
* The filesystem seen by `main` is modelled by an explicit tree of
  directory entries (see `RootFS` further down); `os.listdir` failure is an
  `Except.error` value.
-/

/-- Boolean test that `p` is a prefix of the second list, written as plain
structural recursion so that the kernel can evaluate it.  It models the
positional comparison underlying Python's `in` substring operator. -/
def listHasPre : List Char → List Char → Bool
  | [], _ => true
  | _ :: _, [] => false
  | a :: as, b :: bs => a == b && listHasPre as bs

/-- Boolean substring test: `listHasSub p l` is true iff `p` occurs
contiguously inside `l`.  Models Python's `p in l` on strings. -/
def listHasSub (p : List Char) : List Char → Bool
  | [] => p.isEmpty
  | h :: t => listHasPre p (h :: t) || listHasSub p t

/-- Python `sub in hay` for strings (case-sensitive substring match). -/
def strContains (hay sub : String) : Bool :=
  listHasSub sub.toList hay.toList

/-- Python `hay.endswith (suf)`, used to model the glob suffix filter
`*_kernel_trace.csv`. -/
def strEndsWith (s suf : String) : Bool :=
  listHasPre suf.toList.reverse s.toList.reverse

/-- Python `s.startswith (pre)`, used to model glob's rule that `*` does not
match names beginning with a dot. -/
def strStartsWith (s p : String) : Bool :=
  listHasPre p.toList s.toList

/-- Code-point lexicographic `≤` on character lists: the order Python's
`sorted` uses on strings. -/
def charListLe : List Char → List Char → Bool
  | [], _ => true
  | _ :: _, [] => false
  | a :: as, b :: bs =>
    if a.toNat < b.toNat then true
    else if b.toNat < a.toNat then false
    else charListLe as bs

/-- Python string comparison `a <= b` (lexicographic on code points). -/
def strLe (a b : String) : Bool :=
  charListLe a.toList b.toList

/-- Insert into a list sorted by a string key, keeping an element already in
the list before an equal-keyed newcomer would go after it; together with
`sortByKey` this is a stable insertion sort, matching Python's stable
`sorted`. -/
def insertByKey (key : α → String) (x : α) : List α → List α
  | [] => [x]
  | y :: ys => if strLe (key x) (key y) then x :: y :: ys else y :: insertByKey key x ys

/-- Stable sort by a string key (models Python `sorted`). -/
def sortByKey (key : α → String) : List α → List α
  | [] => []
  | x :: xs => insertByKey key x (sortByKey key xs)

/-- One trace row: the dictionary `csv.DictReader` yields for a data line. -/
abbrev Row := List (String × String)

/-- Python `row.get (k, dflt)`; also models `row.get (k) or ""` when
`dflt = ""` because an empty present value is mapped to `""` either way. -/
def rowGet (r : Row) (k dflt : String) : String :=
  (r.lookup k).getD dflt

/-- Decimal value of a digit string, as computed by Python `int` on the
groups of the variant-directory regex. -/
def digitsVal (ds : List Char) : Nat :=
  ds.foldl (fun a c => 10 * a + (c.toNat - '0'.toNat)) 0

/-- Syntactic shape of a successfully parsed Python float literal: sign,
integer digits, fractional digits, and an optional signed exponent digit
string. -/
structure FloatLit where
  neg : Bool
  ip : List Char
  fp : List Char
  eneg : Bool
  ed : Option (List Char)
deriving DecidableEq

/-- Exponent tail of a Python float literal: consumed after `e`/`E`, an
optionally signed nonempty digit string ending the literal. -/
def pyExpParse (neg : Bool) (ip fp : List Char) (rr : List Char) : Option FloatLit :=
  let en : Bool × List Char :=
    match rr with
    | '+' :: t => (false, t)
    | '-' :: t => (true, t)
    | _ => (false, rr)
  let ed := en.2.takeWhile Char.isDigit
  let r3 := en.2.dropWhile Char.isDigit
  if ed.isEmpty then none
  else if r3.isEmpty then some ⟨neg, ip, fp, en.1, some ed⟩
  else none

/-- Parse a Python float literal (optional sign, integer and/or fractional
digits, optional exponent).  The model covers the plain decimal forms the
trace data uses; Python additionally strips whitespace and accepts
`inf`/`nan`/digit-group underscores, none of which are exercised by the
claims and none of which denote a rational number. -/
def pyFloatParse (l : List Char) : Option FloatLit :=
  let sl : Bool × List Char :=
    match l with
    | '+' :: t => (false, t)
    | '-' :: t => (true, t)
    | _ => (false, l)
  let ip := sl.2.takeWhile Char.isDigit
  let r1 := sl.2.dropWhile Char.isDigit
  match r1 with
  | '.' :: r2 =>
    let fp := r2.takeWhile Char.isDigit
    let r3 := r2.dropWhile Char.isDigit
    if ip.isEmpty && fp.isEmpty then none
    else
      match r3 with
      | [] => some ⟨sl.1, ip, fp, false, none⟩
      | 'e' :: rr => pyExpParse sl.1 ip fp rr
      | 'E' :: rr => pyExpParse sl.1 ip fp rr
      | _ => none
  | [] => if ip.isEmpty then none else some ⟨sl.1, ip, [], false, none⟩
  | 'e' :: rr => if ip.isEmpty then none else pyExpParse sl.1 ip [] rr
  | 'E' :: rr => if ip.isEmpty then none else pyExpParse sl.1 ip [] rr
  | _ => none

/-- Rational value denoted by a parsed float literal. -/
def litVal (L : FloatLit) : ℚ :=
  (if L.neg then -1 else 1) *
    ((digitsVal L.ip : ℚ) + (digitsVal L.fp : ℚ) / (10 : ℚ) ^ L.fp.length) *
    (10 : ℚ) ^ ((if L.eneg then -1 else 1) * (digitsVal (L.ed.getD []) : ℤ))

/-- The script's `safe_float`: parse, and on any failure return the default
(`0.0` at every call site) instead of raising. -/
def safe_float (v : String) : ℚ :=
  match pyFloatParse v.toList with
  | some L => litVal L
  | none => 0

/-- The script's `compute_metrics` (source lines 123-146): derive
`(time_us, total_workgroups, cu_utilization_pct)` from one row. -/
def compute_metrics (row : Row) (num_cus : ℤ) : ℚ × ℚ × ℚ :=
  let start_ts := safe_float (rowGet row "Start_Timestamp" "0")
  let end_ts := safe_float (rowGet row "End_Timestamp" "0")
  let time_us := (end_ts - start_ts) / 1000
  let wsx := max (safe_float (rowGet row "Workgroup_Size_X" "0")) 1
  let wsy := max (safe_float (rowGet row "Workgroup_Size_Y" "0")) 1
  let wsz := max (safe_float (rowGet row "Workgroup_Size_Z" "0")) 1
  let gsx := safe_float (rowGet row "Grid_Size_X" "0")
  let gsy := safe_float (rowGet row "Grid_Size_Y" "0")
  let gsz := safe_float (rowGet row "Grid_Size_Z" "0")
  let total_workgroups := (gsx / wsx) * (gsy / wsy) * (gsz / wsz)
  let cu_utilization : ℚ :=
    if num_cus ≤ 0 then 0 else min (total_workgroups / (num_cus : ℚ)) 1 * 100
  (time_us, total_workgroups, cu_utilization)

/-- One trace CSV as read by `csv.DictReader`: the header line and the data
rows.  An unreadable/empty header is the `header = []` case. -/
structure TraceFile where
  header : List String
  rows : List Row
deriving DecidableEq

/-- Predicate for a marker row: the configured substring occurs in the
row's kernel column (missing field reads as `""`), exactly the test both
passes of the script perform. -/
def isMarkerRow (kernel_col sub : String) (r : Row) : Bool :=
  strContains (rowGet r kernel_col "") sub

/-- Counting loop of `count_occurrences` (source lines 102-104). -/
def countMarkerRows (kernel_col sub : String) : List Row → Nat
  | [] => 0
  | r :: rs =>
    (if isMarkerRow kernel_col sub r then 1 else 0) + countMarkerRows kernel_col sub rs

/-- The script's `count_occurrences` (source lines 96-105): `KeyError` when
the kernel column is missing from the header (an empty header also fails,
which coincides with the membership test), else the marker-row count. -/
def count_occurrences (f : TraceFile) (kernel_col sub : String) : Except String Nat :=
  if f.header.contains kernel_col then
    Except.ok (countMarkerRows kernel_col sub f.rows)
  else
    Except.error ("Kernel column '" ++ kernel_col ++ "' not found")

/-- Loop state of `process_rows_from_half` (source lines 110-120): scans the
rows carrying `occ_index` and `started`, returning the yielded rows and the
final `occ_index`. -/
def halfLoop (kernel_col sub : String) (start0 : Nat) :
    List Row → Nat → Bool → List Row × Nat
  | [], occ, _ => ([], occ)
  | r :: rs, occ, started =>
    if isMarkerRow kernel_col sub r then
      let started' := started || (occ == start0)
      let rest := halfLoop kernel_col sub start0 rs (occ + 1) started'
      (if started' then r :: rest.1 else rest.1, rest.2)
    else
      let rest := halfLoop kernel_col sub start0 rs occ started
      (if started then r :: rest.1 else rest.1, rest.2)

/-- The script's `process_rows_from_half`: rows yielded from the selected
occurrence onward. -/
def process_rows_from_half (rows : List Row) (start_occurrence_0based : Nat)
    (kernel_col sub : String) : List Row :=
  (halfLoop kernel_col sub start_occurrence_0based rows 0 false).1

/-- Zero-based index (into the row list) of the `s`-th (0-indexed) marker
row, written from the specification's description of the window start:
the row where the S-th occurrence of the marker is observed. -/
def nthMarkerIdx (kernel_col sub : String) : List Row → Nat → Option Nat
  | [], _ => none
  | r :: rs, s =>
    if isMarkerRow kernel_col sub r then
      match s with
      | 0 => some 0
      | s' + 1 => (nthMarkerIdx kernel_col sub rs s').map (· + 1)
    else
      (nthMarkerIdx kernel_col sub rs s).map (· + 1)

/-! Correctness lemmas for the string and scanning primitives. -/

theorem listHasPre_iff (p : List Char) : ∀ l, listHasPre p l = true ↔ ∃ t, p ++ t = l := by
  induction p with
  | nil => intro l; simp [listHasPre]
  | cons a as ih =>
    intro l
    cases l with
    | nil => simp [listHasPre]
    | cons b bs =>
      simp only [listHasPre, Bool.and_eq_true, beq_iff_eq, ih]
      constructor
      · rintro ⟨rfl, t, rfl⟩; exact ⟨t, rfl⟩
      · rintro ⟨t, h⟩
        injection h with h1 h2
        exact ⟨h1, t, h2⟩

theorem listHasSub_iff (p : List Char) : ∀ l, listHasSub p l = true ↔ ∃ s t, s ++ p ++ t = l := by
  intro l
  induction l with
  | nil =>
    simp only [listHasSub, List.isEmpty_iff]
    constructor
    · rintro rfl; exact ⟨[], [], rfl⟩
    · rintro ⟨s, t, h⟩
      rcases List.append_eq_nil.mp h with ⟨h1, h2⟩
      exact (List.append_eq_nil.mp h1).2
  | cons b bs ih =>
    simp only [listHasSub, Bool.or_eq_true, listHasPre_iff, ih]
    constructor
    · rintro (⟨t, h⟩ | ⟨s, t, h⟩)
      · exact ⟨[], t, by simp [h]⟩
      · exact ⟨b :: s, t, by simp [← h]⟩
    · rintro ⟨s, t, h⟩
      cases s with
      | nil => exact Or.inl ⟨t, by simpa using h⟩
      | cons c cs =>
        injection h with h1 h2
        exact Or.inr ⟨cs, t, h2⟩

theorem countMarkerRows_eq_countP (c m : String) :
    ∀ rows : List Row, countMarkerRows c m rows = rows.countP (isMarkerRow c m) := by
  intro rows
  induction rows with
  | nil => rfl
  | cons r rs ih => simp only [countMarkerRows, List.countP_cons, ih]; omega

theorem halfLoop_snd (c m : String) (S : Nat) :
    ∀ (rows : List Row) (occ : Nat) (started : Bool),
      (halfLoop c m S rows occ started).2 = occ + countMarkerRows c m rows := by
  intro rows
  induction rows with
  | nil => intro occ started; simp [halfLoop, countMarkerRows]
  | cons r rs ih =>
    intro occ started
    by_cases hm : isMarkerRow c m r
    · simp only [halfLoop, hm, if_true, ih, countMarkerRows]; omega
    · simp only [halfLoop, hm, Bool.false_eq_true, if_false, ih, countMarkerRows]; omega

theorem halfLoop_true (c m : String) (S : Nat) :
    ∀ (rows : List Row) (occ : Nat),
      halfLoop c m S rows occ true = (rows, occ + countMarkerRows c m rows) := by
  intro rows
  induction rows with
  | nil => intro occ; simp [halfLoop, countMarkerRows]
  | cons r rs ih =>
    intro occ
    by_cases hm : isMarkerRow c m r
    · simp only [halfLoop, hm, if_true, Bool.true_or, ih, countMarkerRows]
      refine Prod.ext rfl ?_
      show occ + 1 + _ = occ + _
      omega
    · simp only [halfLoop, hm, Bool.false_eq_true, if_false, ih, countMarkerRows]
      refine Prod.ext rfl ?_
      show occ + _ = occ + (_ + _)
      omega

theorem halfLoop_false_eq_drop (c m : String) (S : Nat) :
    ∀ (rows : List Row) (occ k : Nat), occ ≤ S →
      nthMarkerIdx c m rows (S - occ) = some k →
      (halfLoop c m S rows occ false).1 = rows.drop k := by
  intro rows
  induction rows with
  | nil => intro occ k _ h; simp [nthMarkerIdx] at h
  | cons r rs ih =>
    intro occ k hocc h
    by_cases hm : isMarkerRow c m r
    · rcases Nat.eq_or_lt_of_le hocc with heq | hlt
      · subst heq
        simp only [Nat.sub_self, nthMarkerIdx, hm, if_true] at h
        injection h with h; subst h
        simp only [halfLoop, hm, if_true, beq_self_eq_true, Bool.or_true, if_pos,
          halfLoop_true, List.drop_zero]
      · have hne : (occ == S) = false := by simp; omega
        have hsub : S - occ = (S - (occ + 1)) + 1 := by omega
        rw [hsub] at h
        simp only [nthMarkerIdx, hm, if_true] at h
        rcases Option.map_eq_some'.mp h with ⟨k', hk', rfl⟩
        simp only [halfLoop, hm, if_true, hne, Bool.or_false, Bool.false_eq_true, if_false]
        rw [List.drop_succ_cons]
        exact ih (occ + 1) k' (by omega) hk'
    · simp only [nthMarkerIdx, hm, Bool.false_eq_true, if_false] at h
      rcases Option.map_eq_some'.mp h with ⟨k', hk', rfl⟩
      simp only [halfLoop, hm, Bool.false_eq_true, if_false]
      rw [List.drop_succ_cons]
      exact ih occ k' hocc hk'

theorem halfLoop_false_nil (c m : String) (S : Nat) :
    ∀ (rows : List Row) (occ : Nat), occ + countMarkerRows c m rows ≤ S →
      (halfLoop c m S rows occ false).1 = [] := by
  intro rows
  induction rows with
  | nil => intro occ _; simp [halfLoop]
  | cons r rs ih =>
    intro occ hle
    by_cases hm : isMarkerRow c m r
    · have hcount : countMarkerRows c m (r :: rs) = 1 + countMarkerRows c m rs := by
        simp [countMarkerRows, hm]
      have hne : (occ == S) = false := by simp; omega
      simp only [halfLoop, hm, if_true, hne, Bool.or_false, Bool.false_eq_true, if_false]
      exact ih (occ + 1) (by omega)
    · have hcount : countMarkerRows c m (r :: rs) = countMarkerRows c m rs := by
        simp [countMarkerRows, hm]
      simp only [halfLoop, hm, Bool.false_eq_true, if_false]
      exact ih occ (by omega)

theorem halfLoop_fst_suffix (c m : String) (S : Nat) :
    ∀ (rows : List Row) (occ : Nat) (started : Bool),
      ∃ t, t ++ (halfLoop c m S rows occ started).1 = rows := by
  intro rows
  induction rows with
  | nil => intro occ started; exact ⟨[], rfl⟩
  | cons r rs ih =>
    intro occ started
    by_cases hm : isMarkerRow c m r
    · simp only [halfLoop, hm, if_true]
      by_cases hs : (started || (occ == S)) = true
      · rw [hs]; simp only [if_true]
        exact ⟨[], by simp [halfLoop_true]⟩
      · rw [Bool.not_eq_true] at hs
        rw [hs]
        simp only [Bool.false_eq_true, if_false]
        rcases ih (occ + 1) false with ⟨t, ht⟩
        exact ⟨r :: t, by rw [List.cons_append, ht]⟩
    · simp only [halfLoop, hm, Bool.false_eq_true, if_false]
      cases started with
      | true =>
        simp only [if_true]
        exact ⟨[], by simp [halfLoop_true]⟩
      | false =>
        simp only [Bool.false_eq_true, if_false]
        rcases ih occ false with ⟨t, ht⟩
        exact ⟨r :: t, by rw [List.cons_append, ht]⟩

theorem nthMarkerIdx_spec (c m : String) :
    ∀ (rows : List Row) (s k : Nat), nthMarkerIdx c m rows s = some k →
      (rows.take k).countP (isMarkerRow c m) = s ∧
      ∃ r, rows[k]? = some r ∧ isMarkerRow c m r = true := by
  intro rows
  induction rows with
  | nil => intro s k h; simp [nthMarkerIdx] at h
  | cons r rs ih =>
    intro s k h
    by_cases hm : isMarkerRow c m r
    · simp only [nthMarkerIdx, hm, if_true] at h
      cases s with
      | zero =>
        injection h with h; subst h
        simpa using hm
      | succ s' =>
        rcases Option.map_eq_some'.mp h with ⟨k', hk', rfl⟩
        rcases ih s' k' hk' with ⟨h1, r', h2, h3⟩
        refine ⟨?_, r', by simpa using h2, h3⟩
        simp [List.take_succ_cons, List.countP_cons, hm, h1]
    · simp only [nthMarkerIdx, hm, Bool.false_eq_true, if_false] at h
      rcases Option.map_eq_some'.mp h with ⟨k', hk', rfl⟩
      rcases ih s k' hk' with ⟨h1, r', h2, h3⟩
      refine ⟨?_, r', by simpa using h2, h3⟩
      simp [List.take_succ_cons, List.countP_cons, hm, h1]

theorem nthMarkerIdx_isSome (c m : String) :
    ∀ (rows : List Row) (s : Nat), s < rows.countP (isMarkerRow c m) →
      ∃ k, nthMarkerIdx c m rows s = some k := by
  intro rows
  induction rows with
  | nil => intro s h; simp at h
  | cons r rs ih =>
    intro s h
    by_cases hm : isMarkerRow c m r
    · cases s with
      | zero => exact ⟨0, by simp [nthMarkerIdx, hm]⟩
      | succ s' =>
        have : s' < rs.countP (isMarkerRow c m) := by
          simp [List.countP_cons, hm] at h; omega
        rcases ih s' this with ⟨k', hk'⟩
        exact ⟨k' + 1, by simp [nthMarkerIdx, hm, hk']⟩
    · have : s < rs.countP (isMarkerRow c m) := by
        simp [List.countP_cons, hm] at h; omega
      rcases ih s this with ⟨k', hk'⟩
      exact ⟨k' + 1, by simp [nthMarkerIdx, hm, hk']⟩

/-- Maximal run of ASCII digits at the head of the list, failing if empty:
the behaviour of one `(\d+)` group of the variant regex (maximal munch
coincides with the regex here because the following pattern characters are
not digits).  Python's `\d` additionally matches non-ASCII Unicode decimal
digits; directory names in the claims are ASCII, which the model covers. -/
def parseDigits (l : List Char) : Option (List Char × List Char) :=
  let d := l.takeWhile Char.isDigit
  if d.isEmpty then none else some (d, l.dropWhile Char.isDigit)

/-- Consume an exact literal run of pattern characters from the head of the
name (the non-group parts `p`, `_ub`, `_b` of the variant regex). -/
def stripLit : List Char → List Char → Option (List Char)
  | [], l => some l
  | _ :: _, [] => none
  | c :: cs, x :: xs => if x = c then stripLit cs xs else none

/-- Regex core `p(\d+)_ub(\d+)_b(\d+)`: on success, the parsed `(p, ub, b)`
triple together with the unconsumed rest of the name. -/
def variantParseCore (l : List Char) : Option ((Nat × Nat × Nat) × List Char) := do
  let l1 ← stripLit ['p'] l
  let (d1, r1) ← parseDigits l1
  let l2 ← stripLit ['_', 'u', 'b'] r1
  let (d2, r2) ← parseDigits l2
  let l3 ← stripLit ['_', 'b'] r2
  let (d3, r3) ← parseDigits l3
  pure ((digitsVal d1, digitsVal d2, digitsVal d3), r3)

/-- The script's `VARIANT_DIR_RE.match(name)` (source line 50/88), with the
anchors `^ ... $`: Python's `$` matches at the end of the string and also
just before one final newline, so a name consisting of the pattern plus a
single trailing `'\n'` is accepted as well. -/
def variantMatch (s : String) : Option (Nat × Nat × Nat) :=
  match variantParseCore s.toList with
  | some tr => if tr.2 = [] ∨ tr.2 = ['\n'] then some tr.1 else none
  | none => none

/-- Modelled from the spec: a full-name match of `^p(\d+)_ub(\d+)_b(\d+)$`
with no extra characters, written as an explicit decomposition into the
literal pieces and three nonempty all-digit groups, paired with the parsed
triple. -/
def specVariantName (l : List Char) (t : Nat × Nat × Nat) : Prop :=
  ∃ d1 d2 d3 : List Char,
    d1 ≠ [] ∧ d2 ≠ [] ∧ d3 ≠ [] ∧
    (∀ c ∈ d1, c.isDigit = true) ∧ (∀ c ∈ d2, c.isDigit = true) ∧
    (∀ c ∈ d3, c.isDigit = true) ∧
    l = 'p' :: (d1 ++ '_' :: 'u' :: 'b' :: (d2 ++ '_' :: 'b' :: d3)) ∧
    t = (digitsVal d1, digitsVal d2, digitsVal d3)

theorem takeWhile_append_eq {p : Char → Bool} :
    ∀ (d r : List Char), (∀ c ∈ d, p c = true) → (∀ c, r.head? = some c → p c = false) →
      (d ++ r).takeWhile p = d ∧ (d ++ r).dropWhile p = r := by
  intro d
  induction d with
  | nil =>
    intro r _ hr
    cases r with
    | nil => simp
    | cons c t =>
      have hc : p c = false := hr c rfl
      simp [List.takeWhile_cons, List.dropWhile_cons, hc]
  | cons a d ih =>
    intro r hd hr
    have ha : p a = true := hd a (by simp)
    have := ih r (fun c hc => hd c (by simp [hc])) hr
    simp [List.takeWhile_cons, List.dropWhile_cons, ha, this.1, this.2]

theorem parseDigits_sound {l d r : List Char} (h : parseDigits l = some (d, r)) :
    d ≠ [] ∧ (∀ c ∈ d, c.isDigit = true) ∧ l = d ++ r ∧
      (∀ c, r.head? = some c → c.isDigit = false) := by
  unfold parseDigits at h
  by_cases he : (l.takeWhile Char.isDigit).isEmpty
  · simp [he] at h
  · simp only [he, Bool.false_eq_true, if_false, Option.some.injEq, Prod.mk.injEq] at h
    rcases h with ⟨rfl, rfl⟩
    refine ⟨by simpa [List.isEmpty_iff] using he, fun c hc => List.mem_takeWhile_imp hc,
      (List.takeWhile_append_dropWhile _ _).symm, ?_⟩
    intro c hc
    have := List.head?_dropWhile_not Char.isDigit l
    rw [hc] at this
    exact this

theorem parseDigits_complete {d r : List Char} (hne : d ≠ [])
    (hd : ∀ c ∈ d, c.isDigit = true) (hr : ∀ c, r.head? = some c → c.isDigit = false) :
    parseDigits (d ++ r) = some (d, r) := by
  rcases takeWhile_append_eq d r hd hr with ⟨h1, h2⟩
  unfold parseDigits
  simp [h1, h2, List.isEmpty_iff, hne]

theorem stripLit_eq_some :
    ∀ {pre l r : List Char}, stripLit pre l = some r ↔ l = pre ++ r := by
  intro pre
  induction pre with
  | nil => intro l r; simp [stripLit]
  | cons c cs ih =>
    intro l r
    cases l with
    | nil => simp [stripLit]
    | cons x xs =>
      by_cases hx : x = c
      · subst hx
        simp [stripLit, ih]
      · simp [stripLit, hx]

theorem variantParseCore_sound {l : List Char} {t : Nat × Nat × Nat} {r : List Char}
    (h : variantParseCore l = some (t, r)) :
    (∀ c, r.head? = some c → c.isDigit = false) ∧
      ∃ l0, l = l0 ++ r ∧ specVariantName l0 t := by
  unfold variantParseCore at h
  rcases Option.bind_eq_some.mp h with ⟨l1, hs1, h⟩
  rcases Option.bind_eq_some.mp h with ⟨⟨d1, r1⟩, hp1, h⟩
  rcases Option.bind_eq_some.mp h with ⟨l2, hs2, h⟩
  rcases Option.bind_eq_some.mp h with ⟨⟨d2, r2⟩, hp2, h⟩
  rcases Option.bind_eq_some.mp h with ⟨l3, hs3, h⟩
  rcases Option.bind_eq_some.mp h with ⟨⟨d3, r3⟩, hp3, h⟩
  injection h with h
  injection h with ht hr
  subst ht; subst hr
  rw [stripLit_eq_some] at hs1 hs2 hs3
  rcases parseDigits_sound hp1 with ⟨hne1, hd1, hsplit1, _⟩
  rcases parseDigits_sound hp2 with ⟨hne2, hd2, hsplit2, _⟩
  rcases parseDigits_sound hp3 with ⟨hne3, hd3, hsplit3, hhead3⟩
  refine ⟨hhead3, 'p' :: (d1 ++ '_' :: 'u' :: 'b' :: (d2 ++ '_' :: 'b' :: d3)), ?_, ?_⟩
  · rw [hs1, hsplit1, hs2, hsplit2, hs3, hsplit3]
    simp [List.cons_append, List.append_assoc]
  · exact ⟨d1, d2, d3, hne1, hne2, hne3, hd1, hd2, hd3, rfl, rfl⟩

theorem variantParseCore_complete {l0 : List Char} {t : Nat × Nat × Nat} (r : List Char)
    (hs : specVariantName l0 t) (hr : ∀ c, r.head? = some c → c.isDigit = false) :
    variantParseCore (l0 ++ r) = some (t, r) := by
  rcases hs with ⟨d1, d2, d3, hne1, hne2, hne3, hd1, hd2, hd3, rfl, rfl⟩
  have h3 : parseDigits (d3 ++ r) = some (d3, r) := parseDigits_complete hne3 hd3 hr
  have h2 : parseDigits (d2 ++ '_' :: 'b' :: (d3 ++ r)) = some (d2, '_' :: 'b' :: (d3 ++ r)) :=
    parseDigits_complete hne2 hd2 (by intro c hc; injection hc with hc; subst hc; rfl)
  have h1 : parseDigits (d1 ++ '_' :: 'u' :: 'b' :: (d2 ++ '_' :: 'b' :: (d3 ++ r))) =
      some (d1, '_' :: 'u' :: 'b' :: (d2 ++ '_' :: 'b' :: (d3 ++ r))) :=
    parseDigits_complete hne1 hd1 (by intro c hc; injection hc with hc; subst hc; rfl)
  have he : ('p' :: (d1 ++ '_' :: 'u' :: 'b' :: (d2 ++ '_' :: 'b' :: d3))) ++ r =
      'p' :: (d1 ++ '_' :: 'u' :: 'b' :: (d2 ++ '_' :: 'b' :: (d3 ++ r))) := by
    simp [List.cons_append, List.append_assoc]
  rw [he]
  simp [variantParseCore, stripLit, h1, h2, h3]

theorem strEndsWith_iff (s suf : String) :
    strEndsWith s suf = true ↔ ∃ pre, pre ++ suf.toList = s.toList := by
  unfold strEndsWith
  rw [listHasPre_iff]
  constructor
  · rintro ⟨t, ht⟩
    refine ⟨t.reverse, ?_⟩
    have := congrArg List.reverse ht
    simpa [List.reverse_append] using this
  · rintro ⟨pre, hp⟩
    refine ⟨pre.reverse, ?_⟩
    have := congrArg List.reverse hp
    simpa [List.reverse_append] using this

theorem specVariantName_getLast {l : List Char} {t : Nat × Nat × Nat}
    (h : specVariantName l t) : ∃ c, l.getLast? = some c ∧ c.isDigit = true := by
  rcases h with ⟨d1, d2, d3, _, _, hne3, _, _, hd3, rfl, _⟩
  have hform : 'p' :: (d1 ++ '_' :: 'u' :: 'b' :: (d2 ++ '_' :: 'b' :: d3)) =
      ('p' :: (d1 ++ '_' :: 'u' :: 'b' :: (d2 ++ ['_', 'b']))) ++ d3 := by
    simp [List.cons_append, List.append_assoc]
  rw [hform, List.getLast?_append_of_ne_nil _ hne3]
  refine ⟨d3.getLast hne3, List.getLast?_eq_getLast d3 hne3, hd3 _ (List.getLast_mem hne3)⟩

theorem variantMatch_iff (s : String) (t : Nat × Nat × Nat) :
    variantMatch s = some t ↔
      specVariantName s.toList t ∨
        ∃ l0, s.toList = l0 ++ ['\n'] ∧ specVariantName l0 t := by
  unfold variantMatch
  constructor
  · intro h
    cases hc : variantParseCore s.toList with
    | none => rw [hc] at h; exact absurd h (by simp)
    | some tr =>
      rw [hc] at h
      rcases tr with ⟨t', r⟩
      by_cases hr : r = [] ∨ r = ['\n']
      · simp only [hr, if_true, Option.some.injEq] at h
        subst h
        rcases variantParseCore_sound hc with ⟨_, l0, hsl, hspec⟩
        rcases hr with rfl | rfl
        · rw [List.append_nil] at hsl
          exact Or.inl (hsl ▸ hspec)
        · exact Or.inr ⟨l0, hsl, hspec⟩
      · simp [hr] at h
  · intro h
    rcases h with hspec | ⟨l0, hsl, hspec⟩
    · have := variantParseCore_complete [] hspec (by intro c hc; simp at hc)
      rw [List.append_nil] at this
      rw [this]
      simp
    · have := variantParseCore_complete ['\n'] hspec
        (by intro c hc; injection hc with hc; subst hc; rfl)
      rw [← hsl] at this
      rw [this]
      simp

theorem variantMatch_no_trace_suffix {v : String} {t : Nat × Nat × Nat}
    (h : variantMatch v = some t) :
    strEndsWith (v ++ ".csv") "_kernel_trace.csv" = false := by
  by_contra hcon
  rw [Bool.not_eq_false, strEndsWith_iff] at hcon
  rcases hcon with ⟨pre, hpre⟩
  have hsplit : "_kernel_trace.csv".toList = "_kernel_trace".toList ++ ".csv".toList := by decide
  have hvl : (v ++ ".csv").toList = v.toList ++ ".csv".toList := rfl
  rw [hsplit, hvl, ← List.append_assoc] at hpre
  have hv : pre ++ "_kernel_trace".toList = v.toList := List.append_cancel_right hpre
  have hlast : v.toList.getLast? = some 'e' := by
    rw [← hv, List.getLast?_append_of_ne_nil _ (by decide)]
    decide
  rcases (variantMatch_iff v t).mp h with hspec | ⟨l0, hsl, hspec⟩
  · rcases specVariantName_getLast hspec with ⟨c, hc, hdig⟩
    rw [hlast] at hc
    injection hc with hc
    subst hc
    exact absurd hdig (by decide)
  · rw [hsl, List.getLast?_append_of_ne_nil _ (by decide)] at hlast
    simp at hlast

/-- One trace file inside a second-level directory, with its parsed CSV
content. -/
structure FileEnt where
  name : String
  content : TraceFile
deriving DecidableEq

/-- An immediate subdirectory of a variant directory (e.g. `bel-phx4`) with
the files it contains. -/
structure SubdirEnt where
  name : String
  files : List FileEnt
deriving DecidableEq

/-- An entry of `os.listdir(root)`: its name, whether `os.path.isdir` holds
for it, and (for directories) the next level of subdirectories.  Only
directories exactly one level below a variant directory can contribute
`*/*_kernel_trace.csv` glob matches, so deeper nesting and plain files
directly inside the variant directory are not represented. -/
structure RootEnt where
  name : String
  isDir : Bool
  subdirs : List SubdirEnt
deriving DecidableEq

/-- Outcome of `os.listdir(root)`: `FileNotFoundError` or another
`OSError`-like failure with a message. -/
inductive ListFailure where
  | notFound
  | other (msg : String)
deriving DecidableEq

/-- The filesystem as the script observes it: the root path string and the
result of listing the root. -/
structure RootFS where
  root : String
  listing : Except ListFailure (List RootEnt)

/-- Diagnostics the script prints to stderr, one constructor per call site. -/
inductive Diag where
  | errRootNotFound (root : String)
  | errRootList (root : String) (msg : String)
  | warnNoCsv (vdir : String)
  | errCount (csvPath : String) (msg : String)
  | warnNoOcc (sub : String) (csvPath : String)
deriving DecidableEq

/-- The exact stderr message text of each diagnostic (f-strings of the
source; exception payload rendering is abstracted to the message string). -/
def renderDiag : Diag → String
  | .errRootNotFound root => "ERROR: root path not found: " ++ root
  | .errRootList root msg => "ERROR: failed to list root '" ++ root ++ "': " ++ msg
  | .warnNoCsv vdir => "WARNING: no *_kernel_trace.csv under " ++ vdir
  | .errCount p msg => "ERROR: failed counting occurrences in " ++ p ++ ": " ++ msg
  | .warnNoOcc sub p => "WARNING: no occurrences of '" ++ sub ++ "' in " ++ p ++ "; skipping"

/-- The script's `iter_variant_dirs` (source lines 73-93): on a listing
failure report it and yield nothing; otherwise walk the sorted entry names,
keep directories whose name the variant regex accepts, and pair each with
its parsed `(p, ub, b)`. -/
def iter_variant_dirs (fs : RootFS) : List Diag × List (RootEnt × Nat × Nat × Nat) :=
  match fs.listing with
  | .error .notFound => ([Diag.errRootNotFound fs.root], [])
  | .error (.other msg) => ([Diag.errRootList fs.root msg], [])
  | .ok entries =>
    ([], (sortByKey (fun e => e.name) entries).filterMap fun e =>
      if e.isDir then (variantMatch e.name).map (fun t => (e, t.1, t.2.1, t.2.2)) else none)

/-- One glob hit of `find_csvs`: subdirectory name, file name, content. -/
structure CsvRef where
  subdir : String
  file : String
  content : TraceFile
deriving DecidableEq

/-- Glob's `*` for one path component: any name not beginning with a dot. -/
def globComponentOk (name : String) : Bool :=
  !(strStartsWith name ".")

/-- Filename test of the glob pattern `*_kernel_trace.csv`. -/
def matchesTraceGlob (name : String) : Bool :=
  globComponentOk name && strEndsWith name "_kernel_trace.csv"

/-- The script's `find_csvs` (source lines 149-153):
`sorted(glob.glob(os.path.join(variant_dir, "*", "*_kernel_trace.csv")))`,
with the sort key being the path below the variant directory (every glob
result shares the `variant_dir/` prefix, so sorting full paths and sorting
these relative paths coincide). -/
def globSubdir (sd : SubdirEnt) : List CsvRef :=
  if globComponentOk sd.name then
    (sd.files.filter fun f => matchesTraceGlob f.name).map
      fun f => CsvRef.mk sd.name f.name f.content
  else []

/-- All glob hits below one variant directory, sorted as described above. -/
def find_csvs (e : RootEnt) : List CsvRef :=
  sortByKey (fun c => c.subdir ++ "/" ++ c.file) (e.subdirs.map globSubdir).flatten

/-- Append a path into a `dict`-like association list grouped by key,
preserving insertion order of both keys and values, as
`groups.setdefault(subdir, []).append(path)` does. -/
def insertGrouped (k : String) (c : CsvRef) :
    List (String × List CsvRef) → List (String × List CsvRef)
  | [] => [(k, [c])]
  | (k', cs) :: rest =>
    if k' = k then (k', cs ++ [c]) :: rest else (k', cs) :: insertGrouped k c rest

/-- The script's `group_csvs_by_subdir` (source lines 156-161). -/
def group_csvs_by_subdir (l : List CsvRef) : List (String × List CsvRef) :=
  l.foldl (fun g c => insertGrouped c.subdir c g) []

/-- Round half to even to an integer: the rounding Python's fixed-point
float formatting applies, taken here on the modelled rational value. -/
def roundHalfEven (q : ℚ) : ℤ :=
  let f := ⌊q⌋
  if q - f < 1/2 then f
  else if 1/2 < q - f then f + 1
  else if f % 2 = 0 then f else f + 1

/-- Python `f"{x:.<prec>f}"` on the modelled value: sign, integer part, and
the fractional part zero-padded to `prec` digits. -/
def formatFixed (q : ℚ) (prec : Nat) : String :=
  let n := roundHalfEven (q * (10 : ℚ) ^ prec)
  let a := n.natAbs
  let ipart := a / 10 ^ prec
  let fpart := a % 10 ^ prec
  let fs := toString fpart
  let fpad := String.mk (List.replicate (prec - fs.length) '0') ++ fs
  let sign := if n < 0 ∨ (n = 0 ∧ q < 0) then "-" else ""
  sign ++ toString ipart ++ "." ++ fpad

/-- The fixed header row `main` writes first into every output CSV (source
lines 185-205). -/
def outputHeader : List String :=
  ["variant_dir", "p", "ub", "b", "csv_path", "Dispatch_Id", "Kernel_Id", "Kernel_Name",
   "Start_Timestamp", "End_Timestamp", "time_us", "Workgroup_Size_X", "Workgroup_Size_Y",
   "Workgroup_Size_Z", "Grid_Size_X", "Grid_Size_Y", "Grid_Size_Z", "Total_Workgroups",
   "CU_Utilization_pct"]

/-- `os.path.join` on the plain relative component names the script uses. -/
def pathJoin (a b : String) : String :=
  a ++ "/" ++ b

/-- One output data record as `main` writes it (source lines 224-244):
identifying fields passed through with `""` default, the three derived
values formatted to 3, 6 and 2 decimals. -/
def formatOutRow (vdirPath : String) (p ub b : Nat) (csvPath : String) (num_cus : ℤ)
    (row : Row) : List String :=
  let m := compute_metrics row num_cus
  [vdirPath, toString p, toString ub, toString b, csvPath,
   rowGet row "Dispatch_Id" "", rowGet row "Kernel_Id" "", rowGet row "Kernel_Name" "",
   rowGet row "Start_Timestamp" "", rowGet row "End_Timestamp" "",
   formatFixed m.1 3,
   rowGet row "Workgroup_Size_X" "", rowGet row "Workgroup_Size_Y" "",
   rowGet row "Workgroup_Size_Z" "",
   rowGet row "Grid_Size_X" "", rowGet row "Grid_Size_Y" "", rowGet row "Grid_Size_Z" "",
   formatFixed m.2.1 6, formatFixed m.2.2 2]

/-- Per-file body of `main`'s inner loop (source lines 207-247): count the
marker occurrences (a failure is logged and skips the file); zero
occurrences warn and skip; otherwise stream the half-window rows through
the metric step into output records. -/
def processOneFile (sub : String) (num_cus : ℤ) (vdirPath : String) (p ub b : Nat)
    (csvPath : String) (f : TraceFile) : List (List String) × List Diag :=
  match count_occurrences f "Kernel_Name" sub with
  | .error msg => ([], [Diag.errCount csvPath msg])
  | .ok total_occ =>
    if total_occ = 0 then ([], [Diag.warnNoOcc sub csvPath])
    else
      let start_occ_0 := total_occ / 2
      ((process_rows_from_half f.rows start_occ_0 "Kernel_Name" sub).map
        (formatOutRow vdirPath p ub b csvPath num_cus), [])

/-- One output file write: which variant directory and subdirectory it
lands in, the output file name, and the CSV records written. -/
structure Write where
  variantName : String
  subdirName : String
  fileName : String
  records : List (List String)
deriving DecidableEq

/-- Full path of a write, `os.path.join(subdir, f"{variant_name}.csv")`. -/
def outPathOf (root : String) (w : Write) : String :=
  pathJoin (pathJoin (pathJoin root w.variantName) w.subdirName) w.fileName

/-- Per-variant body of `main` (source lines 170-250) over an already
computed glob result: warn when no trace file exists, else one output file
per group, each holding the header and then every group file's records in
order. -/
def processGroup (sub : String) (num_cus : ℤ) (root vname : String) (p ub b : Nat)
    (g : String × List CsvRef) : List Write × List Diag :=
  let vdirPath := pathJoin root vname
  let fileResults := g.2.map fun c =>
    processOneFile sub num_cus vdirPath p ub b
      (pathJoin (pathJoin vdirPath c.subdir) c.file) c.content
  ([Write.mk vname g.1 (vname ++ ".csv")
      (outputHeader :: (fileResults.map Prod.fst).flatten)],
   (fileResults.map Prod.snd).flatten)

/-- Per-variant loop over the groups (continuation of the same source
lines): one output file per group. -/
def processVariantCore (sub : String) (num_cus : ℤ) (root vname : String)
    (p ub b : Nat) (csvs : List CsvRef) : List Write × List Diag :=
  if csvs.isEmpty then ([], [Diag.warnNoCsv (pathJoin root vname)])
  else
    (group_csvs_by_subdir csvs).foldl
      (fun acc g =>
        (acc.1 ++ (processGroup sub num_cus root vname p ub b g).1,
         acc.2 ++ (processGroup sub num_cus root vname p ub b g).2))
      ([], [])

/-- Per-variant body of `main` on a discovered directory entry. -/
def processVariant (sub : String) (num_cus : ℤ) (root : String) (e : RootEnt)
    (p ub b : Nat) : List Write × List Diag :=
  processVariantCore sub num_cus root e.name p ub b (find_csvs e)

/-- The script's `main` (source lines 164-250) as a function from the
observed filesystem to the writes it performs and the diagnostics it
prints.  Opening the output file cannot fail in the model, so the
write-failure branch of the source (line 248) has no counterpart here. -/
def runAggregate (num_cus : ℤ) (sub : String) (fs : RootFS) : List Write × List Diag :=
  (iter_variant_dirs fs).2.foldl
    (fun acc x =>
      (acc.1 ++ (processVariant sub num_cus fs.root x.1 x.2.1 x.2.2.1 x.2.2.2).1,
       acc.2 ++ (processVariant sub num_cus fs.root x.1 x.2.1 x.2.2.1 x.2.2.2).2))
    ([], (iter_variant_dirs fs).1)

/-- Content of a written file parsed back the way `csv.DictReader` would
read it (never re-read by the script; present so that a second run sees the
file on disk). -/
def recordsToTrace (recs : List (List String)) : TraceFile :=
  TraceFile.mk (recs.headD []) (recs.tail.map fun r => (recs.headD []).zip r)

/-- Apply one write to the files of its target subdirectory: `open(..., "w")`
truncates an existing file of that name or creates a new one. -/
def applyWriteFiles (w : Write) (files : List FileEnt) : List FileEnt :=
  if files.any fun f => f.name = w.fileName then
    files.map fun f =>
      if f.name = w.fileName then FileEnt.mk f.name (recordsToTrace w.records) else f
  else files ++ [FileEnt.mk w.fileName (recordsToTrace w.records)]

/-- Apply one write to a subdirectory entry. -/
def applyWriteSub (w : Write) (sd : SubdirEnt) : SubdirEnt :=
  if sd.name = w.subdirName then SubdirEnt.mk sd.name (applyWriteFiles w sd.files) else sd

/-- Apply one write to a root entry. -/
def applyWriteEnt (w : Write) (e : RootEnt) : RootEnt :=
  if e.name = w.variantName then RootEnt.mk e.name e.isDir (e.subdirs.map (applyWriteSub w))
  else e

/-- Apply a list of writes, in order, to a root entry. -/
def applyWritesEnt (ws : List Write) (e : RootEnt) : RootEnt :=
  ws.foldl (fun a w => applyWriteEnt w a) e

/-- Filesystem state after the script's writes have landed. -/
def applyWrites (ws : List Write) (fs : RootFS) : RootFS :=
  RootFS.mk fs.root (fs.listing.map fun es => es.map (applyWritesEnt ws))

/-- Quoting of one CSV field by `csv.writer`'s default dialect. -/
def csvQuoteField (s : String) : String :=
  if s.toList.any (fun c => c = ',' ∨ c = '"' ∨ c = '\n' ∨ c = '\r') then
    "\"" ++ String.mk (s.toList.foldr
      (fun c acc => if c = '"' then '"' :: '"' :: acc else c :: acc) []) ++ "\""
  else s

/-- One serialized CSV record (`csv.writer`'s default line terminator is
`\r\n`). -/
def csvLine (r : List String) : String :=
  String.intercalate "," (r.map csvQuoteField) ++ "\r\n"

/-- The bytes of a written output file. -/
def serializeWrite (w : Write) : String :=
  String.join (w.records.map csvLine)

/-- A write whose file name the trace glob cannot match; every write the
script performs is of this kind, which is what makes a second run see the
same inputs. -/
def goodWrite (w : Write) : Prop :=
  strEndsWith w.fileName "_kernel_trace.csv" = false

theorem matchesTraceGlob_false_of_good {w : Write} (hw : goodWrite w) :
    matchesTraceGlob w.fileName = false := by
  unfold matchesTraceGlob
  rw [hw]
  simp

theorem foldl_pair_append_fst_mem {α β γ : Type} (g : γ → List α × List β) (x : α) :
    ∀ (l : List γ) (init : List α × List β),
      x ∈ (l.foldl (fun acc c => (acc.1 ++ (g c).1, acc.2 ++ (g c).2)) init).1 ↔
        x ∈ init.1 ∨ ∃ c ∈ l, x ∈ (g c).1 := by
  intro l
  induction l with
  | nil => intro init; simp
  | cons c cs ih =>
    intro init
    rw [List.foldl_cons, ih]
    simp [List.mem_append, or_assoc]

theorem filter_map_replace {w : Write} (hg : matchesTraceGlob w.fileName = false) :
    ∀ files : List FileEnt,
      (files.map fun f =>
          if f.name = w.fileName then FileEnt.mk f.name (recordsToTrace w.records) else f).filter
          (fun f => matchesTraceGlob f.name) =
        files.filter (fun f => matchesTraceGlob f.name) := by
  intro files
  induction files with
  | nil => rfl
  | cons f fs ih =>
    by_cases hf : f.name = w.fileName
    · have hgf : matchesTraceGlob f.name = false := by rw [hf]; exact hg
      rw [List.map_cons, if_pos hf, List.filter_cons, List.filter_cons]
      simp [hgf, ih]
    · rw [List.map_cons, if_neg hf, List.filter_cons, List.filter_cons, ih]

theorem applyWriteFiles_filter {w : Write} (hw : goodWrite w) (files : List FileEnt) :
    (applyWriteFiles w files).filter (fun f => matchesTraceGlob f.name) =
      files.filter (fun f => matchesTraceGlob f.name) := by
  have hg := matchesTraceGlob_false_of_good hw
  unfold applyWriteFiles
  by_cases hany : files.any fun f => f.name = w.fileName
  · rw [if_pos hany]
    exact filter_map_replace hg files
  · rw [if_neg hany, List.filter_append]
    simp [List.filter_cons, hg]

theorem globSubdir_applyWriteSub {w : Write} (hw : goodWrite w) (sd : SubdirEnt) :
    globSubdir (applyWriteSub w sd) = globSubdir sd := by
  unfold applyWriteSub
  by_cases hs : sd.name = w.subdirName
  · rw [if_pos hs]
    unfold globSubdir
    simp only
    rw [applyWriteFiles_filter hw]
  · rw [if_neg hs]

theorem find_csvs_applyWriteEnt {w : Write} (hw : goodWrite w) (e : RootEnt) :
    find_csvs (applyWriteEnt w e) = find_csvs e := by
  unfold applyWriteEnt
  by_cases he : e.name = w.variantName
  · rw [if_pos he]
    unfold find_csvs
    simp only [List.map_map]
    congr 2
    apply List.map_congr_left
    intro sd _
    exact globSubdir_applyWriteSub hw sd
  · rw [if_neg he]

theorem applyWriteEnt_name (w : Write) (e : RootEnt) :
    (applyWriteEnt w e).name = e.name ∧ (applyWriteEnt w e).isDir = e.isDir := by
  unfold applyWriteEnt
  split <;> simp

theorem applyWritesEnt_name (ws : List Write) :
    ∀ e : RootEnt, (applyWritesEnt ws e).name = e.name ∧
      (applyWritesEnt ws e).isDir = e.isDir := by
  induction ws with
  | nil => intro e; exact ⟨rfl, rfl⟩
  | cons w ws ih =>
    intro e
    unfold applyWritesEnt at ih ⊢
    rw [List.foldl_cons]
    rcases ih (applyWriteEnt w e) with ⟨h1, h2⟩
    rcases applyWriteEnt_name w e with ⟨h3, h4⟩
    exact ⟨h1.trans h3, h2.trans h4⟩

theorem find_csvs_applyWritesEnt {ws : List Write} (hws : ∀ w ∈ ws, goodWrite w) :
    ∀ e : RootEnt, find_csvs (applyWritesEnt ws e) = find_csvs e := by
  induction ws with
  | nil => intro e; rfl
  | cons w ws ih =>
    intro e
    unfold applyWritesEnt
    rw [List.foldl_cons]
    have h1 := ih (fun w' hw' => hws w' (by simp [hw'])) (applyWriteEnt w e)
    unfold applyWritesEnt at h1
    rw [h1, find_csvs_applyWriteEnt (hws w (by simp)) e]

theorem insertByKey_map {α : Type} (key : α → String) (f : α → α)
    (hf : ∀ x, key (f x) = key x) (x : α) :
    ∀ l : List α, insertByKey key (f x) (l.map f) = (insertByKey key x l).map f := by
  intro l
  induction l with
  | nil => rfl
  | cons y ys ih =>
    rw [List.map_cons]
    simp only [insertByKey]
    rw [hf x, hf y]
    by_cases hc : strLe (key x) (key y) = true
    · rw [if_pos hc, if_pos hc, List.map_cons, List.map_cons]
    · rw [if_neg hc, if_neg hc, List.map_cons, ih]

theorem sortByKey_map {α : Type} (key : α → String) (f : α → α)
    (hf : ∀ x, key (f x) = key x) :
    ∀ l : List α, sortByKey key (l.map f) = (sortByKey key l).map f := by
  intro l
  induction l with
  | nil => rfl
  | cons y ys ih =>
    rw [List.map_cons]
    unfold sortByKey
    rw [ih, insertByKey_map key f hf]

theorem filterMap_option_map {α β γ : Type} (h : α → Option β) (g : β → γ) :
    ∀ l : List α, l.filterMap (fun a => (h a).map g) = (l.filterMap h).map g := by
  intro l
  induction l with
  | nil => rfl
  | cons a l ih =>
    cases ha : h a with
    | none => simp [List.filterMap_cons, ha, ih]
    | some b => simp [List.filterMap_cons, ha, ih]

theorem iter_variant_dirs_applyWrites (ws : List Write) (fs : RootFS) :
    iter_variant_dirs (applyWrites ws fs) =
      ((iter_variant_dirs fs).1,
        (iter_variant_dirs fs).2.map fun x => (applyWritesEnt ws x.1, x.2)) := by
  rcases fs with ⟨root, listing⟩
  cases listing with
  | error err =>
    cases err with
    | notFound => rfl
    | other msg => rfl
  | ok entries =>
    unfold iter_variant_dirs applyWrites
    simp only [Except.map]
    refine Prod.ext rfl ?_
    show _ = List.map _ _
    rw [sortByKey_map (fun e => e.name) (applyWritesEnt ws)
      (fun e => (applyWritesEnt_name ws e).1)]
    rw [List.filterMap_map]
    have hpt : ∀ e : RootEnt,
        ((fun e => if e.isDir then (variantMatch e.name).map
            (fun t => (e, t.1, t.2.1, t.2.2)) else none) ∘ applyWritesEnt ws) e =
          Option.map (fun x : RootEnt × Nat × Nat × Nat => (applyWritesEnt ws x.1, x.2))
            (if e.isDir then (variantMatch e.name).map
              (fun t => (e, t.1, t.2.1, t.2.2)) else none) := by
      intro e
      rcases applyWritesEnt_name ws e with ⟨hn, hd⟩
      simp only [Function.comp, hn, hd]
      by_cases hdir : e.isDir
      · rw [if_pos hdir, if_pos hdir]
        cases variantMatch e.name with
        | none => rfl
        | some t => rfl
      · rw [if_neg hdir, if_neg hdir]
        rfl
    calc (sortByKey (fun e => e.name) entries).filterMap
          ((fun e => if e.isDir then (variantMatch e.name).map
            (fun t => (e, t.1, t.2.1, t.2.2)) else none) ∘ applyWritesEnt ws)
        = (sortByKey (fun e => e.name) entries).filterMap
            (fun e => Option.map (fun x : RootEnt × Nat × Nat × Nat =>
              (applyWritesEnt ws x.1, x.2))
              (if e.isDir then (variantMatch e.name).map
                (fun t => (e, t.1, t.2.1, t.2.2)) else none)) := by
          exact List.filterMap_congr (fun e _ => hpt e)
      _ = _ := filterMap_option_map _ _ _

theorem processVariant_applyWritesEnt {ws : List Write} (hws : ∀ w ∈ ws, goodWrite w)
    (sub : String) (num_cus : ℤ) (root : String) (e : RootEnt) (p ub b : Nat) :
    processVariant sub num_cus root (applyWritesEnt ws e) p ub b =
      processVariant sub num_cus root e p ub b := by
  unfold processVariant
  rw [find_csvs_applyWritesEnt hws, (applyWritesEnt_name ws e).1]

theorem runAggregate_applyWrites {ws : List Write} (hws : ∀ w ∈ ws, goodWrite w)
    (num_cus : ℤ) (sub : String) (fs : RootFS) :
    runAggregate num_cus sub (applyWrites ws fs) = runAggregate num_cus sub fs := by
  unfold runAggregate
  rw [iter_variant_dirs_applyWrites]
  have hroot : (applyWrites ws fs).root = fs.root := rfl
  rw [hroot, List.foldl_map]
  congr 1
  funext acc x
  rw [processVariant_applyWritesEnt hws]

theorem processVariantCore_writes_name (sub : String) (num_cus : ℤ)
    (root vname : String) (p ub b : Nat) (csvs : List CsvRef) :
    ∀ w ∈ (processVariantCore sub num_cus root vname p ub b csvs).1,
      w.fileName = vname ++ ".csv" := by
  intro w hw
  unfold processVariantCore at hw
  by_cases hcs : csvs.isEmpty
  · rw [if_pos hcs] at hw
    simp at hw
  · rw [if_neg hcs] at hw
    rw [foldl_pair_append_fst_mem (processGroup sub num_cus root vname p ub b)] at hw
    rcases hw with h | ⟨g, _, hmem⟩
    · simp at h
    · rcases List.mem_singleton.mp hmem with rfl
      rfl

theorem iter_variant_dirs_mem_variantMatch {fs : RootFS} {e : RootEnt}
    {p ub b : Nat} (h : (e, p, ub, b) ∈ (iter_variant_dirs fs).2) :
    e.isDir = true ∧ variantMatch e.name = some (p, ub, b) := by
  unfold iter_variant_dirs at h
  rcases fs with ⟨root, listing⟩
  cases listing with
  | error err =>
    cases err with
    | notFound => simp at h
    | other msg => simp at h
  | ok entries =>
    simp only at h
    rcases List.mem_filterMap.mp h with ⟨a, _, ha⟩
    by_cases hdir : a.isDir
    · rw [if_pos hdir] at ha
      rcases Option.map_eq_some'.mp ha with ⟨t, ht, hv⟩
      injection hv with hv1 hv2
      subst hv1
      injection hv2 with h1 h23
      injection h23 with h2 h3
      subst h1; subst h2; subst h3
      exact ⟨hdir, by simpa using ht⟩
    · rw [if_neg hdir] at ha
      exact absurd ha (by simp)

theorem runAggregate_writes_good (num_cus : ℤ) (sub : String) (fs : RootFS) :
    ∀ w ∈ (runAggregate num_cus sub fs).1, goodWrite w := by
  intro w hw
  unfold runAggregate at hw
  rw [foldl_pair_append_fst_mem
    (fun x : RootEnt × Nat × Nat × Nat =>
      processVariant sub num_cus fs.root x.1 x.2.1 x.2.2.1 x.2.2.2)] at hw
  rcases hw with h | ⟨x, hx, hmem⟩
  · simp at h
  · rcases x with ⟨e, p, ub, b⟩
    rcases iter_variant_dirs_mem_variantMatch hx with ⟨_, hv⟩
    have hname := processVariantCore_writes_name sub num_cus fs.root e.name p ub b
      (find_csvs e) w hmem
    unfold goodWrite
    rw [hname]
    exact variantMatch_no_trace_suffix hv

theorem process_rows_from_half_eq_drop {rows : List Row} {S k : Nat} {col sub : String}
    (h : nthMarkerIdx col sub rows S = some k) :
    process_rows_from_half rows S col sub = rows.drop k := by
  unfold process_rows_from_half
  exact halfLoop_false_eq_drop col sub S rows 0 k (Nat.zero_le S) (by simpa using h)

/-- C5: for every trace file, marker substring and zero-based start index
`S` that names an existing occurrence (the `S`-th marker row sits at row
index `k`), the selector emits exactly the rows from that row through end
of file — the `drop k` suffix — so emitted rows keep the original file
order, and `k` really is the `S`-th occurrence: exactly `S` marker rows
precede it and the row at `k` is a marker row. -/
theorem C5_half_window_is_drop_at_nth_occurrence (rows : List Row) (S k : Nat)
    (col sub : String) (h : nthMarkerIdx col sub rows S = some k) :
    process_rows_from_half rows S col sub = rows.drop k ∧
      (rows.take k).countP (isMarkerRow col sub) = S ∧
      ∃ r, rows[k]? = some r ∧ isMarkerRow col sub r = true := by
  rcases nthMarkerIdx_spec col sub rows S k h with ⟨h1, h2⟩
  exact ⟨process_rows_from_half_eq_drop h, h1, h2⟩

/-- Concrete trace rows with marker occurrences at row indices 1 and 3. -/
def rowsC5 : List Row :=
  [[("Kernel_Name", "other_kernel")],
   [("Kernel_Name", "pre_rms_norm_f32_post")],
   [("Dispatch_Id", "7")],
   [("Kernel_Name", "rms_norm_f32_v2")]]

theorem C5_half_window_witness :
    process_rows_from_half rowsC5 1 "Kernel_Name" "rms_norm_f32" = rowsC5.drop 3 :=
  (C5_half_window_is_drop_at_nth_occurrence rowsC5 1 3 "Kernel_Name" "rms_norm_f32"
    (by decide)).1

/-- C10: when the requested start occurrence index is at least the file's
total marker count (in particular for a marker-free file and any index),
the selector returns the empty row sequence; being a total function, it
raises nothing. -/
theorem C10_selector_empty_when_start_past_total (rows : List Row) (S : Nat)
    (col sub : String) (h : countMarkerRows col sub rows ≤ S) :
    process_rows_from_half rows S col sub = [] := by
  unfold process_rows_from_half
  exact halfLoop_false_nil col sub S rows 0 (by omega)

/-- Concrete trace rows with a single marker occurrence. -/
def rowsC10 : List Row :=
  [[("Kernel_Name", "rms_norm_f32")], [("Kernel_Name", "matmul")]]

theorem C10_selector_empty_witness :
    process_rows_from_half rowsC10 1 "Kernel_Name" "rms_norm_f32" = [] :=
  C10_selector_empty_when_start_past_total rowsC10 1 "Kernel_Name" "rms_norm_f32"
    (by decide)

theorem toList_ne_nil_of_ne_empty {s : String} (h : s ≠ "") : s.toList ≠ [] := by
  intro hnil
  apply h
  cases s with
  | mk data =>
    have hd : data = [] := hnil
    rw [hd]

/-- C6 (amended): the counter errors exactly when the inspected field is
missing from the header; on success it returns the number of rows whose
field value contains the marker substring, where a missing field reads as
the empty string; containment is genuine substring occurrence; and for a
NONEMPTY marker substring an empty or missing field value never matches
(the empty marker substring, by contrast, matches every row, which is the
amendment). -/
theorem C6_count_occurrences_amended (f : TraceFile) (col sub : String) :
    ((∃ msg, count_occurrences f col sub = Except.error msg) ↔ col ∉ f.header) ∧
    (col ∈ f.header →
      count_occurrences f col sub = Except.ok (f.rows.countP (isMarkerRow col sub))) ∧
    (∀ r : Row, isMarkerRow col sub r = true ↔
      ∃ s t, s ++ sub.toList ++ t = (rowGet r col "").toList) ∧
    (sub ≠ "" → ∀ r : Row, rowGet r col "" = "" → isMarkerRow col sub r = false) := by
  refine ⟨?_, ?_, ?_, ?_⟩
  · unfold count_occurrences
    by_cases hc : col ∈ f.header
    · rw [if_pos (List.elem_iff.mpr hc)]
      simp [hc]
    · rw [if_neg (fun hcon => hc (List.elem_iff.mp hcon))]
      simp [hc]
  · intro hc
    unfold count_occurrences
    rw [if_pos (List.elem_iff.mpr hc), countMarkerRows_eq_countP]
  · intro r
    unfold isMarkerRow strContains
    exact listHasSub_iff sub.toList (rowGet r col "").toList
  · intro hne r hempty
    unfold isMarkerRow strContains
    rw [hempty]
    show listHasSub sub.toList [] = false
    unfold listHasSub
    simpa [List.isEmpty_iff] using toList_ne_nil_of_ne_empty hne

/-- C6 counterexample data: a file whose single row has no fields at all,
so the inspected field reads as the empty string. -/
def fileC6 : TraceFile :=
  TraceFile.mk ["Kernel_Name"] [[]]

/-- C6 counterexample: with the empty marker substring the row whose field
value is empty/missing IS counted (Python `"" in ""` is true), so the
claim's "an empty or missing field value counts as no match" fails for the
empty substring: the count is 1, not 0. -/
theorem C6_empty_marker_counterexample :
    count_occurrences fileC6 "Kernel_Name" "" = Except.ok 1 ∧
      rowGet ([] : Row) "Kernel_Name" "" = "" := by
  constructor
  · rfl
  · rfl

/-- Concrete file for the C6 witness: marker in one of two rows. -/
def fileC6w : TraceFile :=
  TraceFile.mk ["Kernel_Name", "Dispatch_Id"]
    [[("Kernel_Name", "rms_norm_f32"), ("Dispatch_Id", "1")],
     [("Kernel_Name", "softmax"), ("Dispatch_Id", "2")]]

theorem C6_count_occurrences_witness :
    count_occurrences fileC6w "Kernel_Name" "rms_norm_f32" =
      Except.ok (fileC6w.rows.countP (isMarkerRow "Kernel_Name" "rms_norm_f32")) :=
  (C6_count_occurrences_amended fileC6w "Kernel_Name" "rms_norm_f32").2.1 (by decide)

/-- C7: when the counting pass succeeds (the kernel column is present), the
count it returns is exactly the number of marker rows the selector's own
pass observes (its final `occ_index`, for any start index), and the rows
the selector emits are a suffix of the file's rows — the very same row
values in the same order, untouched before the metric step. -/
theorem C7_two_pass_agreement (f : TraceFile) (col sub : String) (S : Nat)
    (hcol : col ∈ f.header) :
    count_occurrences f col sub =
      Except.ok ((halfLoop col sub S f.rows 0 false).2) ∧
    ∃ t, t ++ process_rows_from_half f.rows S col sub = f.rows := by
  constructor
  · unfold count_occurrences
    rw [if_pos (List.elem_iff.mpr hcol), halfLoop_snd]
    norm_num
  · unfold process_rows_from_half
    exact halfLoop_fst_suffix col sub S f.rows 0 false

/-- Concrete file for the C7 witness. -/
def fileC7 : TraceFile :=
  TraceFile.mk ["Kernel_Name"]
    [[("Kernel_Name", "rms_norm_f32")], [("Kernel_Name", "gemm")],
     [("Kernel_Name", "rms_norm_f32")]]

theorem C7_two_pass_witness :
    count_occurrences fileC7 "Kernel_Name" "rms_norm_f32" =
      Except.ok ((halfLoop "Kernel_Name" "rms_norm_f32" 1 fileC7.rows 0 false).2) ∧
    ∃ t, t ++ process_rows_from_half fileC7.rows 1 "Kernel_Name" "rms_norm_f32" =
      fileC7.rows :=
  C7_two_pass_agreement fileC7 "Kernel_Name" "rms_norm_f32" 1 (by decide)

theorem charListLe_cons_iff {x y : Char} {xs ys : List Char} :
    charListLe (x :: xs) (y :: ys) = true ↔
      x.toNat < y.toNat ∨ (x.toNat = y.toNat ∧ charListLe xs ys = true) := by
  show (if x.toNat < y.toNat then true
    else if y.toNat < x.toNat then false else charListLe xs ys) = true ↔ _
  by_cases h1 : x.toNat < y.toNat
  · rw [if_pos h1]
    simp [h1]
  · rw [if_neg h1]
    by_cases h2 : y.toNat < x.toNat
    · rw [if_pos h2]
      simp only [Bool.false_eq_true, false_iff]
      rintro (h | ⟨h, _⟩) <;> omega
    · rw [if_neg h2]
      have he : x.toNat = y.toNat := by omega
      simp [he]

theorem charListLe_total : ∀ a b : List Char, charListLe a b = true ∨ charListLe b a = true := by
  intro a
  induction a with
  | nil => intro b; exact Or.inl rfl
  | cons x xs ih =>
    intro b
    cases b with
    | nil => exact Or.inr rfl
    | cons y ys =>
      rcases Nat.lt_trichotomy x.toNat y.toNat with h | h | h
      · exact Or.inl (charListLe_cons_iff.mpr (Or.inl h))
      · rcases ih ys with h' | h'
        · exact Or.inl (charListLe_cons_iff.mpr (Or.inr ⟨h, h'⟩))
        · exact Or.inr (charListLe_cons_iff.mpr (Or.inr ⟨h.symm, h'⟩))
      · exact Or.inr (charListLe_cons_iff.mpr (Or.inl h))

theorem charListLe_trans : ∀ a b c : List Char,
    charListLe a b = true → charListLe b c = true → charListLe a c = true := by
  intro a
  induction a with
  | nil => intro b c _ _; rfl
  | cons x xs ih =>
    intro b c hab hbc
    cases b with
    | nil => exact absurd hab (by simp [charListLe])
    | cons y ys =>
      cases c with
      | nil => exact absurd hbc (by simp [charListLe])
      | cons z zs =>
        rcases charListLe_cons_iff.mp hab with h1 | ⟨h1, h1'⟩ <;>
          rcases charListLe_cons_iff.mp hbc with h2 | ⟨h2, h2'⟩
        · exact charListLe_cons_iff.mpr (Or.inl (by omega))
        · exact charListLe_cons_iff.mpr (Or.inl (by omega))
        · exact charListLe_cons_iff.mpr (Or.inl (by omega))
        · exact charListLe_cons_iff.mpr (Or.inr ⟨by omega, ih ys zs h1' h2'⟩)

theorem strLe_total (a b : String) : strLe a b = true ∨ strLe b a = true :=
  charListLe_total a.toList b.toList

theorem strLe_trans {a b c : String} (h1 : strLe a b = true) (h2 : strLe b c = true) :
    strLe a c = true :=
  charListLe_trans a.toList b.toList c.toList h1 h2

theorem mem_insertByKey {α : Type} (key : α → String) (x y : α) :
    ∀ l : List α, y ∈ insertByKey key x l ↔ y = x ∨ y ∈ l := by
  intro l
  induction l with
  | nil => simp [insertByKey]
  | cons z zs ih =>
    unfold insertByKey
    by_cases hc : strLe (key x) (key z) = true
    · rw [if_pos hc]
      simp
    · rw [if_neg hc]
      simp only [List.mem_cons, ih]
      tauto

theorem mem_sortByKey {α : Type} (key : α → String) (y : α) :
    ∀ l : List α, y ∈ sortByKey key l ↔ y ∈ l := by
  intro l
  induction l with
  | nil => simp [sortByKey]
  | cons x xs ih =>
    unfold sortByKey
    rw [mem_insertByKey]
    simp only [List.mem_cons, ih]

theorem insertByKey_pairwise {α : Type} (key : α → String) (x : α) :
    ∀ l : List α, l.Pairwise (fun a b => strLe (key a) (key b) = true) →
      (insertByKey key x l).Pairwise (fun a b => strLe (key a) (key b) = true) := by
  intro l
  induction l with
  | nil => intro _; simp [insertByKey]
  | cons y ys ih =>
    intro hl
    rcases List.pairwise_cons.mp hl with ⟨hy, hys⟩
    unfold insertByKey
    by_cases hc : strLe (key x) (key y) = true
    · rw [if_pos hc]
      refine List.pairwise_cons.mpr ⟨?_, hl⟩
      intro z hz
      rcases List.mem_cons.mp hz with rfl | hz'
      · exact hc
      · exact strLe_trans hc (hy z hz')
    · rw [if_neg hc]
      refine List.pairwise_cons.mpr ⟨?_, ih hys⟩
      intro z hz
      rcases (mem_insertByKey key x z ys).mp hz with heq | hz'
      · rw [heq]
        rcases strLe_total (key x) (key y) with h | h
        · exact absurd h hc
        · exact h
      · exact hy z hz'

theorem sortByKey_pairwise {α : Type} (key : α → String) :
    ∀ l : List α, (sortByKey key l).Pairwise (fun a b => strLe (key a) (key b) = true) := by
  intro l
  induction l with
  | nil => simp [sortByKey]
  | cons x xs ih =>
    unfold sortByKey
    exact insertByKey_pairwise key x (sortByKey key xs) ih

/-- C8: running the aggregate step a second time, on the filesystem produced
by applying the first run's writes, with the same root, CU count and marker
substring, performs exactly the same run: it targets the same output paths
and produces byte-identical serialized CSV contents (indeed the whole
write/diagnostic outcome is equal). -/
theorem C8_rerun_byte_identical (num_cus : ℤ) (sub : String) (fs : RootFS) :
    runAggregate num_cus sub (applyWrites (runAggregate num_cus sub fs).1 fs) =
      runAggregate num_cus sub fs ∧
    (runAggregate num_cus sub (applyWrites (runAggregate num_cus sub fs).1 fs)).1.map
        (outPathOf fs.root) =
      (runAggregate num_cus sub fs).1.map (outPathOf fs.root) ∧
    (runAggregate num_cus sub (applyWrites (runAggregate num_cus sub fs).1 fs)).1.map
        serializeWrite =
      (runAggregate num_cus sub fs).1.map serializeWrite := by
  have h := runAggregate_applyWrites (runAggregate_writes_good num_cus sub fs) num_cus sub fs
  exact ⟨h, by rw [h], by rw [h]⟩

theorem processVariantCore_records_head (sub : String) (num_cus : ℤ)
    (root vname : String) (p ub b : Nat) (csvs : List CsvRef) :
    ∀ w ∈ (processVariantCore sub num_cus root vname p ub b csvs).1,
      w.records.head? = some outputHeader := by
  intro w hw
  unfold processVariantCore at hw
  by_cases hcs : csvs.isEmpty
  · rw [if_pos hcs] at hw
    simp at hw
  · rw [if_neg hcs] at hw
    rw [foldl_pair_append_fst_mem (processGroup sub num_cus root vname p ub b)] at hw
    rcases hw with h | ⟨g, _, hmem⟩
    · simp at h
    · rcases List.mem_singleton.mp hmem with rfl
      rfl

theorem runAggregate_records_head (num_cus : ℤ) (sub : String) (fs : RootFS) :
    ∀ w ∈ (runAggregate num_cus sub fs).1, w.records.head? = some outputHeader := by
  intro w hw
  unfold runAggregate at hw
  rw [foldl_pair_append_fst_mem
    (fun x : RootEnt × Nat × Nat × Nat =>
      processVariant sub num_cus fs.root x.1 x.2.1 x.2.2.1 x.2.2.2)] at hw
  rcases hw with h | ⟨x, _, hmem⟩
  · simp at h
  · exact processVariantCore_records_head sub num_cus fs.root x.1.name
      x.2.1 x.2.2.1 x.2.2.2 (find_csvs x.1) w hmem

/-- C2 (amended: the header has 19 columns, not 18): every output CSV the
aggregate step writes has as its first record the fixed header row, whose
columns are, in order: variant directory, p, ub, b, source file path,
dispatch id, kernel id, kernel name, start timestamp, end timestamp,
derived time_us, the three workgroup-size dims, the three grid-size dims,
total workgroups, utilization percentage — 19 columns. -/
theorem C2_output_header_first_record (num_cus : ℤ) (sub : String) (fs : RootFS)
    (w : Write) (hw : w ∈ (runAggregate num_cus sub fs).1) :
    w.records.head? = some outputHeader ∧
    outputHeader =
      ["variant_dir", "p", "ub", "b", "csv_path", "Dispatch_Id", "Kernel_Id",
       "Kernel_Name", "Start_Timestamp", "End_Timestamp", "time_us",
       "Workgroup_Size_X", "Workgroup_Size_Y", "Workgroup_Size_Z",
       "Grid_Size_X", "Grid_Size_Y", "Grid_Size_Z", "Total_Workgroups",
       "CU_Utilization_pct"] ∧
    outputHeader.length = 19 :=
  ⟨runAggregate_records_head num_cus sub fs w hw, rfl, rfl⟩

/-- Tiny concrete filesystem: one variant directory, one subdirectory, one
trace file with the kernel column and no data rows. -/
def fsC2 : RootFS :=
  RootFS.mk "prof"
    (Except.ok [RootEnt.mk "p1_ub2_b3" true
      [SubdirEnt.mk "bel"
        [FileEnt.mk "a_kernel_trace.csv" (TraceFile.mk ["Kernel_Name"] [])]]])

/-- C2 counterexample: on a concrete run the first record of the produced
output CSV has 19 columns, which contradicts the claim's "exactly 18
columns". -/
theorem C2_header_width_counterexample :
    ((runAggregate 1 "rms_norm_f32" fsC2).1.map fun w => (w.records.headD []).length) =
      [19] ∧ (19 : Nat) ≠ 18 := by
  constructor
  · rfl
  · decide

theorem C2_output_header_witness :
    (Write.mk "p1_ub2_b3" "bel" "p1_ub2_b3.csv" [outputHeader]).records.head? =
      some outputHeader ∧
    outputHeader =
      ["variant_dir", "p", "ub", "b", "csv_path", "Dispatch_Id", "Kernel_Id",
       "Kernel_Name", "Start_Timestamp", "End_Timestamp", "time_us",
       "Workgroup_Size_X", "Workgroup_Size_Y", "Workgroup_Size_Z",
       "Grid_Size_X", "Grid_Size_Y", "Grid_Size_Z", "Total_Workgroups",
       "CU_Utilization_pct"] ∧
    outputHeader.length = 19 :=
  C2_output_header_first_record 1 "rms_norm_f32" fsC2
    (Write.mk "p1_ub2_b3" "bel" "p1_ub2_b3.csv" [outputHeader]) (by decide)

/-- C9 (amended: the full-name match also accepts exactly one trailing
newline character, because Python's `$` anchor matches just before a final
newline): discovery on an unlistable root reports the failure and yields
nothing, returning cleanly; on a listable root it emits no diagnostics and
yields, in sorted name order, exactly the directory entries whose name the
variant regex accepts, paired with the parsed `(p, ub, b)` triple; and the
regex acceptance is precisely a full-name `p(\d+)_ub(\d+)_b(\d+)`
decomposition, optionally followed by a single trailing newline. -/
theorem C9_discovery_amended (fs : RootFS) :
    (∀ err, fs.listing = Except.error err →
      (iter_variant_dirs fs).2 = [] ∧
      (iter_variant_dirs fs).1 =
        [match err with
         | ListFailure.notFound => Diag.errRootNotFound fs.root
         | ListFailure.other msg => Diag.errRootList fs.root msg]) ∧
    (∀ entries, fs.listing = Except.ok entries →
      (iter_variant_dirs fs).1 = [] ∧
      ((iter_variant_dirs fs).2.Pairwise fun a b => strLe a.1.name b.1.name = true) ∧
      (∀ (e : RootEnt) (p ub b : Nat),
        (e, p, ub, b) ∈ (iter_variant_dirs fs).2 ↔
          e ∈ entries ∧ e.isDir = true ∧ variantMatch e.name = some (p, ub, b))) ∧
    (∀ (s : String) (t : Nat × Nat × Nat), variantMatch s = some t ↔
      specVariantName s.toList t ∨
        ∃ l0, s.toList = l0 ++ ['\n'] ∧ specVariantName l0 t) := by
  refine ⟨?_, ?_, variantMatch_iff⟩
  · intro err herr
    unfold iter_variant_dirs
    rw [herr]
    cases err with
    | notFound => exact ⟨rfl, rfl⟩
    | other msg => exact ⟨rfl, rfl⟩
  · intro entries hok
    have hiter : iter_variant_dirs fs =
        ([], (sortByKey (fun e => e.name) entries).filterMap fun e =>
          if e.isDir then (variantMatch e.name).map (fun t => (e, t.1, t.2.1, t.2.2))
          else none) := by
      unfold iter_variant_dirs
      rw [hok]
    rw [hiter]
    refine ⟨rfl, ?_, ?_⟩
    · refine List.Pairwise.filterMap _ ?_ (sortByKey_pairwise (fun e => e.name) entries)
      intro a a' hR b hb b' hb'
      have hfst : ∀ (c : RootEnt) (x : RootEnt × Nat × Nat × Nat),
          x ∈ (if c.isDir then (variantMatch c.name).map
            (fun t => (c, t.1, t.2.1, t.2.2)) else none) → x.1 = c := by
        intro c x hx
        by_cases hd : c.isDir
        · rw [if_pos hd] at hx
          rcases Option.map_eq_some'.mp (Option.mem_def.mp hx) with ⟨t, _, hxc⟩
          rw [← hxc]
        · rw [if_neg hd] at hx
          simp at hx
      rw [hfst a b hb, hfst a' b' hb']
      exact hR
    · intro e p ub b
      constructor
      · intro hmem
        rcases List.mem_filterMap.mp hmem with ⟨a, has, ha⟩
        by_cases hd : a.isDir
        · rw [if_pos hd] at ha
          rcases Option.map_eq_some'.mp ha with ⟨t, ht, hv⟩
          injection hv with hv1 hv2
          subst hv1
          injection hv2 with h1 h23
          injection h23 with h2 h3
          subst h1; subst h2; subst h3
          refine ⟨(mem_sortByKey (fun e => e.name) a entries).mp has, hd, by simpa using ht⟩
        · rw [if_neg hd] at ha
          exact absurd ha (by simp)
      · rintro ⟨hmem, hd, hv⟩
        refine List.mem_filterMap.mpr ⟨e, (mem_sortByKey (fun e => e.name) e entries).mpr hmem, ?_⟩
        rw [if_pos hd, hv]
        rfl

/-- C9 counterexample data: a directory entry whose name is the variant
pattern followed by one newline character. -/
def entC9 : RootEnt :=
  RootEnt.mk "p1_ub2_b3\n" true []

/-- Root filesystem containing only the newline-suffixed directory. -/
def fsC9 : RootFS :=
  RootFS.mk "prof" (Except.ok [entC9])

/-- C9 counterexample: discovery yields the directory named
`"p1_ub2_b3\n"` (with its parsed triple), yet no full-name match with "no
extra characters" exists for that name for any triple — the code accepts
one trailing newline, contradicting the claim as stated. -/
theorem C9_trailing_newline_counterexample :
    (iter_variant_dirs fsC9).2 = [(entC9, 1, 2, 3)] ∧
      ∀ t : Nat × Nat × Nat, ¬ specVariantName "p1_ub2_b3\n".toList t := by
  constructor
  · rfl
  · intro t h
    rcases specVariantName_getLast h with ⟨c, hc, hdig⟩
    have hl : "p1_ub2_b3\n".toList.getLast? = some '\n' := by decide
    rw [hl] at hc
    injection hc with hc
    rw [← hc] at hdig
    exact absurd hdig (by decide)

/-- Concrete filesystem for the C9 witness: one matching directory, one
non-matching plain file. -/
def fsC9w : RootFS :=
  RootFS.mk "prof"
    (Except.ok [RootEnt.mk "p10_ub2_b3" true [], RootEnt.mk "notes.txt" false []])

theorem C9_discovery_witness :
    (RootEnt.mk "p10_ub2_b3" true [], 10, 2, 3) ∈ (iter_variant_dirs fsC9w).2 :=
  (((C9_discovery_amended fsC9w).2.1
      [RootEnt.mk "p10_ub2_b3" true [], RootEnt.mk "notes.txt" false []] rfl).2.2
    (RootEnt.mk "p10_ub2_b3" true []) 10 2 3).mpr
    ⟨by decide, rfl, by decide⟩

theorem processOneFile_ok {sub : String} {num_cus : ℤ} {vdirPath : String}
    {p ub b : Nat} {csvPath : String} {f : TraceFile} {cnt : Nat}
    (h : count_occurrences f "Kernel_Name" sub = Except.ok cnt) :
    processOneFile sub num_cus vdirPath p ub b csvPath f =
      if cnt = 0 then ([], [Diag.warnNoOcc sub csvPath])
      else ((process_rows_from_half f.rows (cnt / 2) "Kernel_Name" sub).map
        (formatOutRow vdirPath p ub b csvPath num_cus), []) := by
  unfold processOneFile
  rw [h]

theorem count_occurrences_ok {f : TraceFile} (sub : String)
    (hcol : "Kernel_Name" ∈ f.header) :
    count_occurrences f "Kernel_Name" sub =
      Except.ok (countMarkerRows "Kernel_Name" sub f.rows) := by
  unfold count_occurrences
  rw [if_pos (List.elem_iff.mpr hcol)]

/-- C1: in the aggregate step's per-file processing, with the kernel column
present: a file with zero marker occurrences is skipped — no output records
and exactly one warning whose rendered stderr text contains the file path
verbatim; a file with `N > 0` occurrences contributes exactly the rows
from the `(N / 2)`-th (zero-based) marker occurrence onward — the suffix of
the file starting at that occurrence's row index — mapped through the
metric/format step, with no diagnostics. -/
theorem C1_window_start_and_zero_skip (sub : String) (num_cus : ℤ)
    (vdirPath : String) (p ub b : Nat) (csvPath : String) (f : TraceFile)
    (hcol : "Kernel_Name" ∈ f.header) :
    (countMarkerRows "Kernel_Name" sub f.rows = 0 →
      processOneFile sub num_cus vdirPath p ub b csvPath f =
        ([], [Diag.warnNoOcc sub csvPath]) ∧
      ∃ s t, s ++ csvPath.toList ++ t =
        (renderDiag (Diag.warnNoOcc sub csvPath)).toList) ∧
    (0 < countMarkerRows "Kernel_Name" sub f.rows →
      ∃ k, nthMarkerIdx "Kernel_Name" sub f.rows
          (countMarkerRows "Kernel_Name" sub f.rows / 2) = some k ∧
        processOneFile sub num_cus vdirPath p ub b csvPath f =
          ((f.rows.drop k).map (formatOutRow vdirPath p ub b csvPath num_cus), [])) := by
  have hok := count_occurrences_ok sub hcol
  constructor
  · intro h0
    constructor
    · rw [processOneFile_ok hok, if_pos h0]
    · refine ⟨("WARNING: no occurrences of '" ++ sub ++ "' in ").toList,
        "; skipping".toList, ?_⟩
      have happ : ∀ a b : String, (a ++ b).toList = a.toList ++ b.toList := fun _ _ => rfl
      show _ = (("WARNING: no occurrences of '" ++ sub ++ "' in " ++ csvPath ++
        "; skipping") : String).toList
      simp only [happ, List.append_assoc]
  · intro hpos
    have hlt : countMarkerRows "Kernel_Name" sub f.rows / 2 <
        f.rows.countP (isMarkerRow "Kernel_Name" sub) := by
      rw [← countMarkerRows_eq_countP]
      exact Nat.div_lt_self hpos (by norm_num)
    rcases nthMarkerIdx_isSome "Kernel_Name" sub f.rows _ hlt with ⟨k, hk⟩
    refine ⟨k, hk, ?_⟩
    rw [processOneFile_ok hok, if_neg (by omega), process_rows_from_half_eq_drop hk]

/-- Concrete file for the C1 witness: two marker rows. -/
def fileC1 : TraceFile :=
  TraceFile.mk ["Kernel_Name"]
    [[("Kernel_Name", "rms_norm_f32")], [("Kernel_Name", "rms_norm_f32")]]

theorem C1_window_start_witness :
    processOneFile "rms_norm_f32" 1 "prof/p1_ub2_b3" 1 2 3 "trace.csv" fileC1 =
      ((fileC1.rows.drop 1).map (formatOutRow "prof/p1_ub2_b3" 1 2 3 "trace.csv" 1),
        []) := by
  obtain ⟨k, hk, hout⟩ :=
    (C1_window_start_and_zero_skip "rms_norm_f32" 1 "prof/p1_ub2_b3" 1 2 3
      "trace.csv" fileC1 (by decide)).2 (by decide)
  have hk1 : nthMarkerIdx "Kernel_Name" "rms_norm_f32" fileC1.rows
      (countMarkerRows "Kernel_Name" "rms_norm_f32" fileC1.rows / 2) = some 1 := by decide
  rw [hk1] at hk
  injection hk with hk
  rw [← hk] at hout
  exact hout

theorem safe_float_eval {v : String} (L : FloatLit)
    (h : pyFloatParse v.toList = some L) : safe_float v = litVal L := by
  unfold safe_float
  rw [h]

theorem litVal_int (neg : Bool) (ip : List Char) (n : Nat) (h : digitsVal ip = n) :
    litVal (FloatLit.mk neg ip [] false none) = (if neg then -1 else 1) * (n : ℚ) := by
  unfold litVal
  have hz : digitsVal ([] : List Char) = 0 := rfl
  simp [hz, h]

theorem compute_metrics_time (row : Row) (n : ℤ) :
    (compute_metrics row n).1 =
      (safe_float (rowGet row "End_Timestamp" "0") -
        safe_float (rowGet row "Start_Timestamp" "0")) / 1000 := rfl

theorem compute_metrics_tw (row : Row) (n : ℤ) :
    (compute_metrics row n).2.1 =
      (safe_float (rowGet row "Grid_Size_X" "0") /
        max (safe_float (rowGet row "Workgroup_Size_X" "0")) 1) *
      (safe_float (rowGet row "Grid_Size_Y" "0") /
        max (safe_float (rowGet row "Workgroup_Size_Y" "0")) 1) *
      (safe_float (rowGet row "Grid_Size_Z" "0") /
        max (safe_float (rowGet row "Workgroup_Size_Z" "0")) 1) := rfl

theorem compute_metrics_cu (row : Row) (n : ℤ) :
    (compute_metrics row n).2.2 =
      if n ≤ 0 then 0 else min ((compute_metrics row n).2.1 / (n : ℚ)) 1 * 100 := rfl

theorem cu_formula_bounds {q : ℚ} {n : ℤ} (hq : 0 ≤ q) (hn : 0 < n) :
    0 ≤ min (q / (n : ℚ)) 1 * 100 ∧ min (q / (n : ℚ)) 1 * 100 ≤ 100 := by
  have hn' : (0 : ℚ) < (n : ℚ) := by exact_mod_cast hn
  constructor
  · have h0 : 0 ≤ min (q / (n : ℚ)) 1 := le_min (div_nonneg hq hn'.le) (by norm_num)
    nlinarith
  · have h1 : min (q / (n : ℚ)) 1 ≤ 1 := min_le_right _ _
    nlinarith

/-- C3 (amended: the `[0, 100]` bound additionally needs the computed total
workgroup value to be nonnegative, which holds whenever the parsed grid
sizes are nonnegative; a negative parsed grid value drives the percentage
below zero, see the counterexample): `cu_utilization_pct` is exactly `0`
whenever `numCUs ≤ 0`, and lies within `[0, 100]` whenever `numCUs > 0` and
`total_workgroups ≥ 0`, regardless of the magnitude of
`total_workgroups`. -/
theorem C3_cu_utilization_bounds (row : Row) (num_cus : ℤ) :
    (num_cus ≤ 0 → (compute_metrics row num_cus).2.2 = 0) ∧
    (0 < num_cus → 0 ≤ (compute_metrics row num_cus).2.1 →
      0 ≤ (compute_metrics row num_cus).2.2 ∧
        (compute_metrics row num_cus).2.2 ≤ 100) := by
  constructor
  · intro h
    rw [compute_metrics_cu, if_pos h]
  · intro hpos htw
    rw [compute_metrics_cu, if_neg (by omega)]
    exact cu_formula_bounds htw hpos

/-- C3 counterexample data: a raw trace row whose `Grid_Size_X` parses to a
negative number (the other grid dims are `1`, workgroup sizes default). -/
def rowC3 : Row :=
  [("Grid_Size_X", "-1"), ("Grid_Size_Y", "1"), ("Grid_Size_Z", "1")]

theorem C3_negative_grid_counterexample :
    (compute_metrics rowC3 4).2.2 < 0 ∧ (0 : ℤ) < 4 := by
  refine ⟨?_, by decide⟩
  have hm1 : safe_float "-1" = -1 := by
    rw [safe_float_eval (FloatLit.mk true ['1'] [] false none) (by decide),
      litVal_int true ['1'] 1 (by decide)]
    norm_num
  have h1 : safe_float "1" = 1 := by
    rw [safe_float_eval (FloatLit.mk false ['1'] [] false none) (by decide),
      litVal_int false ['1'] 1 (by decide)]
    norm_num
  have h0 : safe_float "0" = 0 := by
    rw [safe_float_eval (FloatLit.mk false ['0'] [] false none) (by decide),
      litVal_int false ['0'] 0 (by decide)]
    norm_num
  have htw : (compute_metrics rowC3 4).2.1 = -1 := by
    rw [compute_metrics_tw]
    have e1 : rowGet rowC3 "Grid_Size_X" "0" = "-1" := rfl
    have e2 : rowGet rowC3 "Grid_Size_Y" "0" = "1" := rfl
    have e3 : rowGet rowC3 "Grid_Size_Z" "0" = "1" := rfl
    have e4 : rowGet rowC3 "Workgroup_Size_X" "0" = "0" := rfl
    have e5 : rowGet rowC3 "Workgroup_Size_Y" "0" = "0" := rfl
    have e6 : rowGet rowC3 "Workgroup_Size_Z" "0" = "0" := rfl
    rw [e1, e2, e3, e4, e5, e6, hm1, h1, h0]
    norm_num
  rw [compute_metrics_cu, if_neg (by norm_num), htw]
  have hmin : min ((-1 : ℚ) / ((4 : ℤ) : ℚ)) 1 = -1 / 4 := by
    apply min_eq_left
    norm_num
  rw [hmin]
  norm_num

/-- C3 witness row: all fields absent, so the computed total workgroup
count is `0`. -/
theorem C3_cu_utilization_witness :
    0 ≤ (compute_metrics ([] : Row) 4).2.2 ∧ (compute_metrics ([] : Row) 4).2.2 ≤ 100 := by
  have h0 : safe_float "0" = 0 := by
    rw [safe_float_eval (FloatLit.mk false ['0'] [] false none) (by decide),
      litVal_int false ['0'] 0 (by decide)]
    norm_num
  have htw : (compute_metrics ([] : Row) 4).2.1 = 0 := by
    rw [compute_metrics_tw]
    have e : ∀ k, rowGet ([] : Row) k "0" = "0" := fun _ => rfl
    rw [e, e, e, e, e, e, h0]
    norm_num
  exact (C3_cu_utilization_bounds ([] : Row) 4).2 (by decide) (by rw [htw])

/-- Modelled from the spec (§4.3): a field value that fails numeric parsing
is treated as `0.0`, with no exception raised. -/
def specParseOrZero (v : String) : ℚ :=
  ((pyFloatParse v.toList).map litVal).getD 0

/-- Modelled from the spec:
`time_us = (end_timestamp - start_timestamp) / 1000`, no clamping. -/
def specTimeUs (row : Row) : ℚ :=
  (specParseOrZero (rowGet row "End_Timestamp" "0") -
    specParseOrZero (rowGet row "Start_Timestamp" "0")) / 1000

/-- Modelled from the spec: each workgroup-size dimension floored at a
minimum of `1` before being used as a divisor. -/
def specWgDim (row : Row) (k : String) : ℚ :=
  max (specParseOrZero (rowGet row k "0")) 1

/-- Modelled from the spec:
`total_workgroups = (grid_x / wg_x) * (grid_y / wg_y) * (grid_z / wg_z)`,
computed in the (here: rational) field with no integer truncation. -/
def specTotalWorkgroups (row : Row) : ℚ :=
  (specParseOrZero (rowGet row "Grid_Size_X" "0") / specWgDim row "Workgroup_Size_X") *
  (specParseOrZero (rowGet row "Grid_Size_Y" "0") / specWgDim row "Workgroup_Size_Y") *
  (specParseOrZero (rowGet row "Grid_Size_Z" "0") / specWgDim row "Workgroup_Size_Z")

/-- Modelled from the spec: `0` for `numCUs ≤ 0`, else
`min(total_workgroups / numCUs, 1.0) * 100`. -/
def specCuUtil (row : Row) (n : ℤ) : ℚ :=
  if n ≤ 0 then 0 else min (specTotalWorkgroups row / (n : ℚ)) 1 * 100

theorem safe_float_eq_spec (v : String) : safe_float v = specParseOrZero v := by
  unfold safe_float specParseOrZero
  cases pyFloatParse v.toList with
  | none => rfl
  | some L => rfl

/-- Concrete row for the "possibly negative, not clamped" part of C4: the
end timestamp precedes the start timestamp. -/
def rowC4 : Row :=
  [("Start_Timestamp", "2000"), ("End_Timestamp", "1000")]

/-- C4: the Metric Deriver is a total function returning exactly the triple
the specification's formulas describe — time difference over 1000 with no
clamping, workgroup dims floored at 1 before dividing, the floating
(rational) product of the three grid/workgroup quotients, utilization from
the clamped ratio — with every unparsable field treated as `0.0` (the spec
side is built from `specParseOrZero`, which returns `0` instead of
raising); and on a concrete row with the timestamps reversed the derived
`time_us` is indeed negative. -/
theorem C4_compute_metrics_formulas :
    (∀ (row : Row) (n : ℤ), compute_metrics row n =
      (specTimeUs row, specTotalWorkgroups row, specCuUtil row n)) ∧
    (compute_metrics rowC4 1).1 < 0 := by
  constructor
  · intro row n
    unfold compute_metrics specTimeUs specTotalWorkgroups specWgDim specCuUtil
    simp only [safe_float_eq_spec]
    rfl
  · have h1000 : safe_float "1000" = 1000 := by
      rw [safe_float_eval (FloatLit.mk false ['1', '0', '0', '0'] [] false none)
        (by decide), litVal_int false ['1', '0', '0', '0'] 1000 (by decide)]
      norm_num
    have h2000 : safe_float "2000" = 2000 := by
      rw [safe_float_eval (FloatLit.mk false ['2', '0', '0', '0'] [] false none)
        (by decide), litVal_int false ['2', '0', '0', '0'] 2000 (by decide)]
      norm_num
    rw [compute_metrics_time]
    have e1 : rowGet rowC4 "End_Timestamp" "0" = "1000" := rfl
    have e2 : rowGet rowC4 "Start_Timestamp" "0" = "2000" := rfl
    rw [e1, e2, h1000, h2000]
    norm_num
